import Mathlib

/-!
Verification development for the pipefence goldmark extension
(extension.go).  The extension consists of two passes over a parsed
Markdown document tree owned by the host engine:

* the Tagger (`transformer.Transform`): one traversal collecting every
  fenced code block, then, for each collected block whose declared
  language is a key of the `PipeFuncs` registry, replacement of that
  block by a `pfBlock` wrapper at the same position in its parent;

* the Raw Emitter (`pfRenderer.RegisterFuncs` / `renderFenced`): a
  render hook registered for the `pfBlock` node kind which, on
  entering a tagged node, pipes the block's raw content through the
  registered function and writes the returned bytes verbatim.

Byte buffers are modelled as lists of natural numbers.  The host
engine (goldmark) is an external collaborator whose sources are not
part of this repository; its interface (tree walk in document order,
replace-in-parent, render dispatch by node kind with entering/leaving
calls) is modelled from the specification.  The extension's own code
is translated from extension.go.
-/

/-- Byte buffers (Go `[]byte`), one natural number per byte. -/
abbrev Bytes := List Nat

/-- Modelled from the spec: a half-open span into the original source
buffer, as the host's `text.Segment` (a contiguous byte span referencing
the original source buffer, not a copy). -/
structure Segment where
  first : Nat
  stop : Nat
deriving DecidableEq, Repr

/-- Modelled from the spec: the bytes `src[first:stop]` denoted by a
segment (the host's `Segment.Value`). -/
def Segment.value (s : Segment) (src : Bytes) : Bytes :=
  (src.drop s.first).take (s.stop - s.first)

/-- The data carried by a fenced code block node: the span of its
declared language tag inside the fence info string (none when the fence
has no info string) and the ordered content-line spans (`Lines()`). -/
structure BlockData where
  langSeg : Option Segment
  lines : List Segment
deriving DecidableEq, Repr

/-- Modelled from the spec: `FencedCodeBlock.Language(src)`, the declared
language tag as bytes — the first whitespace-delimited token of the fence
info string, whose span the parser stored; empty when there is none. -/
def BlockData.language (b : BlockData) (src : Bytes) : Bytes :=
  match b.langSeg with
  | none => []
  | some s => s.value src

/-- pfBlock.RawContent (extension.go): loop over the block's lines,
writing each line's bytes to a fresh buffer, and return the buffer. -/
def BlockData.rawContent (b : BlockData) (src : Bytes) : Bytes :=
  b.lines.foldl (fun buf line => buf ++ line.value src) []

/-- PipeFunc (extension.go): how to transform the contents of a fenced
code block — bytes in, bytes out or an error. -/
def PipeFunc := Bytes → Except String Bytes

/-- The transformer registry `Extension.PipeFuncs`: a Go map from
language-tag string to PipeFunc, modelled as an association list with
first-match lookup (map keys are unique, so first match is the match). -/
def Registry := List (Bytes × PipeFunc)

/-- Registry lookup `PipeFuncs[lang]`: exact (case-sensitive) equality
of the key bytes. -/
def Registry.lookup (reg : Registry) (k : Bytes) : Option PipeFunc :=
  match reg with
  | [] => none
  | (k2, f) :: rest => if k2 = k then some f else Registry.lookup rest k

/-- The parsed document tree.  `fenced` is the host's FencedCodeBlock,
`pf` is this extension's pfBlock wrapper (same data, distinct kind),
and `node` covers every other host node kind (document, paragraph,
text, ...), with an abstract payload for node-local data and a list of
children.  Fenced blocks are raw: their content lives in line spans,
not in children. -/
inductive Node where
  | fenced (b : BlockData)
  | pf (b : BlockData)
  | node (kind : Nat) (payload : Bytes) (children : List Node)
deriving Repr

/-! Paths (lists of child indices) locate nodes in a tree. -/

mutual

/-- The node of `n` at path `p`, if the path is valid. -/
def Node.get? : Node → List Nat → Option Node
  | n, [] => some n
  | .node _ _ cs, i :: p => Node.listGet? cs i p
  | _, _ :: _ => none

/-- Descend into the `i`-th element of a child list, then follow `p`. -/
def Node.listGet? : List Node → Nat → List Nat → Option Node
  | [], _, _ => none
  | c :: _, 0, p => c.get? p
  | _ :: cs, i + 1, p => Node.listGet? cs i p

end

mutual

/-- Replace the node at path `p` by `m` (identity on invalid paths). -/
def Node.setAt : Node → List Nat → Node → Node
  | _, [], m => m
  | .node k d cs, i :: p, m => .node k d (Node.listSetAt cs i p m)
  | n, _ :: _, _ => n

/-- Replace at path `p` inside the `i`-th element of a child list. -/
def Node.listSetAt : List Node → Nat → List Nat → Node → List Node
  | [], _, _, _ => []
  | c :: cs, 0, p, m => c.setAt p m :: cs
  | c :: cs, i + 1, p, m => c :: Node.listSetAt cs i p m

end

mutual

/-- Phase one of transformer.Transform (extension.go): the ast.Walk
collecting every FencedCodeBlock of the tree, here as the pre-order
(document-order) list of the paths of those blocks.  The callback's type
check `node.(*ast.FencedCodeBlock)` matches only the fenced kind, so
pfBlock wrappers and other kinds contribute nothing. -/
def Node.fencedPaths : Node → List (List Nat)
  | .fenced _ => [[]]
  | .pf _ => []
  | .node _ _ cs => Node.fencedPathsList cs 0

/-- Collect fenced-block paths of the children `cs`, the first child
having index `i`. -/
def Node.fencedPathsList : List Node → Nat → List (List Nat)
  | [], _ => []
  | c :: cs, i =>
      (c.fencedPaths).map (fun p => i :: p) ++ Node.fencedPathsList cs (i + 1)

end

/-- One iteration of the replacement loop of transformer.Transform
(extension.go): for the collected block at path `p`, read its declared
language (`fb.Language(reader.Source())`), look it up in the registry;
on a miss `continue`; on a hit replace the block in its parent by a
pfBlock wrapper built from a copy of the block's data
(`doc.ReplaceChild(parent, fb, &pfBlock{FencedCodeBlock: *fb})`).
Replacement by node identity in Go is replacement by path here, since
the collected paths point at distinct fenced blocks. -/
def tagStep (reg : Registry) (src : Bytes) (d : Node) (p : List Nat) : Node :=
  match d.get? p with
  | some (.fenced b) =>
      match reg.lookup (b.language src) with
      | some _ => d.setAt p (.pf b)
      | none => d
  | _ => d

/-- transformer.Transform (extension.go): collect all fenced code
blocks in one walk, then run the replacement loop over the collected
list in order. -/
def transform (reg : Registry) (src : Bytes) (doc : Node) : Node :=
  (doc.fencedPaths).foldl (tagStep reg src) doc

mutual

/-- The net effect of the Tagger on a tree: each fenced block whose
language is registered becomes a pfBlock with the same data, every
other node is kept (children rewritten recursively).  Proved equal to
`transform` below. -/
def tagNode (reg : Registry) (src : Bytes) : Node → Node
  | .fenced b =>
      match reg.lookup (b.language src) with
      | some _ => .pf b
      | none => .fenced b
  | .pf b => .pf b
  | .node k d cs => .node k d (tagList reg src cs)

/-- `tagNode` mapped over a child list. -/
def tagList (reg : Registry) (src : Bytes) : List Node → List Node
  | [] => []
  | c :: cs => tagNode reg src c :: tagList reg src cs

end

mutual

/-- A tree is pf-free when it contains no pfBlock wrapper.  The host
parser produces only its own node kinds, so every freshly parsed
document is pf-free; wrappers exist only after the Tagger ran. -/
def Node.pfFree : Node → Bool
  | .fenced _ => true
  | .pf _ => false
  | .node _ _ cs => Node.pfFreeList cs

/-- `pfFree` over a child list. -/
def Node.pfFreeList : List Node → Bool
  | [] => true
  | c :: cs => c.pfFree && Node.pfFreeList cs

end

mutual

/-- The fenced blocks of a tree whose language is registered, in
document (pre-order) order: exactly the blocks the Tagger replaces. -/
def matchedBlocks (reg : Registry) (src : Bytes) : Node → List BlockData
  | .fenced b =>
      match reg.lookup (b.language src) with
      | some _ => [b]
      | none => []
  | .pf _ => []
  | .node _ _ cs => matchedBlocksList reg src cs

/-- `matchedBlocks` over a child list. -/
def matchedBlocksList (reg : Registry) (src : Bytes) : List Node → List BlockData
  | [] => []
  | c :: cs => matchedBlocks reg src c ++ matchedBlocksList reg src cs

end

/-- ast.WalkStatus: the traversal-control signal a render hook returns
to the host walk. -/
inductive WalkStatus where
  | wContinue
  | wSkipChildren
  | wStop
deriving DecidableEq, Repr

/-- The error built by the render hook on a transformer failure:
fmt.Errorf renders a message embedding the failing language tag (%q)
and the underlying cause (%v); the embedding keeps the two components
the message is built from. -/
structure RenderError where
  lang : Bytes
  cause : String
deriving DecidableEq, Repr

/-- The outcome of one render-hook call: the traversal signal, the
bytes written to the output sink, a ghost trace of the transformer
invocations made (language tag and input bytes of each call, in call
order; the Go code has no such value, it only instruments the model),
and the error returned, if any. -/
structure HookResult where
  status : WalkStatus
  out : Bytes
  calls : List (Bytes × Bytes)
  err : Option RenderError
deriving Repr

/-- renderFenced (extension.go): the render hook registered for the
pfBlock kind.  Reads the node's language, looks it up in the registry;
on a miss returns WalkContinue; when leaving the node returns
WalkContinue; otherwise invokes the pipe function on the node's raw
content: on failure returns WalkStop with a wrapped error, on success
writes the returned bytes and returns WalkSkipChildren. -/
def renderFenced (reg : Registry) (src : Bytes) (b : BlockData)
    (entering : Bool) : HookResult :=
  match reg.lookup (b.language src) with
  | none => ⟨.wContinue, [], [], none⟩
  | some pipeFunc =>
      if entering = false then ⟨.wContinue, [], [], none⟩
      else
        match pipeFunc (b.rawContent src) with
        | .error cause =>
            ⟨.wStop, [], [(b.language src, b.rawContent src)],
              some ⟨b.language src, cause⟩⟩
        | .ok content =>
            ⟨.wSkipChildren, content,
              [(b.language src, b.rawContent src)], none⟩

/-- Modelled from the spec: the host's default per-kind renderers.
`enterB k d` and `leaveB k d` are the bytes the default renderer for
kind `k` writes on entering and leaving a node with payload `d`;
`fencedOut src b` is the host's complete default (wrapped, escaped)
output for an untagged fenced code block.  All are abstract: the host
provides them and the extension never inspects them. -/
structure HostRenderer where
  enterB : Nat → Bytes → Bytes
  leaveB : Nat → Bytes → Bytes
  fencedOut : Bytes → BlockData → Bytes

/-- The outcome of rendering a subtree: bytes written to the sink so
far, the ghost trace of transformer invocations, and, when a hook
halted the walk, the error it returned (bytes already written remain
in the sink). -/
structure RenderResult where
  out : Bytes
  calls : List (Bytes × Bytes)
  err : Option RenderError
deriving Repr

mutual

/-- Modelled from the spec: the host render pass with this extension
installed.  The walk visits each node entering and leaving; pfBlock
nodes dispatch to `renderFenced` (their registered hook), fenced
blocks get the host's default fenced rendering, every other kind gets
its default renderer.  An error from a hook halts the walk: nothing
after it is rendered, ancestors' leaving output is not written. -/
def renderNode (reg : Registry) (hr : HostRenderer) (src : Bytes) :
    Node → RenderResult
  | .fenced b => ⟨hr.fencedOut src b, [], none⟩
  | .pf b =>
      let r1 := renderFenced reg src b true
      match r1.err with
      | some e => ⟨r1.out, r1.calls, some e⟩
      | none =>
          let r2 := renderFenced reg src b false
          ⟨r1.out ++ r2.out, r1.calls ++ r2.calls, r2.err⟩
  | .node k d cs =>
      let rs := renderList reg hr src cs
      match rs.err with
      | some e => ⟨hr.enterB k d ++ rs.out, rs.calls, some e⟩
      | none => ⟨hr.enterB k d ++ rs.out ++ hr.leaveB k d, rs.calls, none⟩

/-- Render the children of a node in order, halting at the first
error. -/
def renderList (reg : Registry) (hr : HostRenderer) (src : Bytes) :
    List Node → RenderResult
  | [] => ⟨[], [], none⟩
  | c :: cs =>
      let r := renderNode reg hr src c
      match r.err with
      | some e => ⟨r.out, r.calls, some e⟩
      | none =>
          let rs := renderList reg hr src cs
          ⟨r.out ++ rs.out, r.calls ++ rs.calls, rs.err⟩

end

mutual

/-- Modelled from the spec: the host engine's unmodified default
rendering, the pipeline with no extension installed.  Untagged fenced
blocks get the default wrapped, escaped output; other kinds write
their default entering and leaving bytes around their children; a
pfBlock kind has no registered renderer in the unmodified host, so the
walk writes nothing for it. -/
def defaultRender (hr : HostRenderer) (src : Bytes) : Node → Bytes
  | .fenced b => hr.fencedOut src b
  | .pf _ => []
  | .node k d cs => hr.enterB k d ++ defaultRenderList hr src cs ++ hr.leaveB k d

/-- `defaultRender` over a child list. -/
def defaultRenderList (hr : HostRenderer) (src : Bytes) : List Node → Bytes
  | [] => []
  | c :: cs => defaultRender hr src c ++ defaultRenderList hr src cs

end

/-- A family of transformer functions all succeeding on the given
blocks: for each listed block, the registered function for its language
returns successfully on its raw content. -/
def allSucceed (reg : Registry) (src : Bytes) (bs : List BlockData) : Prop :=
  ∀ b ∈ bs, ∀ f, reg.lookup (b.language src) = some f →
    ∃ out, f (b.rawContent src) = Except.ok out

/-! Concrete inputs used by the witnesses below: the bytes of the
Markdown text consisting of a fenced block tagged "banana" containing
"foo" followed by a fenced block tagged "unknown" containing "foo",
with the two blocks' language and content-line spans, an o-to-a
transformer registered under "banana", an always-failing transformer,
and a host renderer with visible default markers. -/

/-- Bytes of two fenced blocks, one tagged "banana" and one tagged
"unknown", each containing the line "foo". -/
def srcEx : Bytes :=
  [96, 96, 96, 98, 97, 110, 97, 110, 97, 10, 102, 111, 111, 10, 96, 96, 96, 10,
   96, 96, 96, 117, 110, 107, 110, 111, 119, 110, 10, 102, 111, 111, 10, 96, 96, 96, 10]

/-- The "banana"-tagged block of `srcEx`: language span `srcEx[3:9]`,
one content line `srcEx[10:14]` (the bytes of "foo" and a newline). -/
def bananaBlock : BlockData := ⟨some ⟨3, 9⟩, [⟨10, 14⟩]⟩

/-- The "unknown"-tagged block of `srcEx`: language span `srcEx[21:28]`,
one content line `srcEx[29:33]`. -/
def unknownBlock : BlockData := ⟨some ⟨21, 28⟩, [⟨29, 33⟩]⟩

/-- The transformer of the repository's test: replace every `o` (byte
111) by `a` (byte 97). -/
def oToA : PipeFunc := fun bs => .ok (bs.map (fun c => if c = 111 then 97 else c))

/-- A transformer that always fails. -/
def failFunc : PipeFunc := fun _ => .error "boom"

/-- The bytes of the registry key "banana". -/
def bananaKey : Bytes := [98, 97, 110, 97, 110, 97]

/-- A registry mapping "banana" to the o-to-a transformer. -/
def bananaReg : Registry := [(bananaKey, oToA)]

/-- A registry mapping "banana" to the failing transformer. -/
def failReg : Registry := [(bananaKey, failFunc)]

/-- A host renderer with visible default output, so that witnesses can
tell transformed output apart from default markup. -/
def hrMark : HostRenderer :=
  ⟨fun k _ => [60, k], fun k _ => [47, k, 62], fun _ _ => [112, 114, 101]⟩

/-- A document with one matched ("banana") and one unmatched
("unknown") fenced block. -/
def dMix : Node := .node 0 [] [.fenced bananaBlock, .fenced unknownBlock]

/-- A document with a paragraph-like node and one unmatched fenced
block: no block matches the banana registry. -/
def dUnknown : Node := .node 0 [] [.node 1 [102] [], .fenced unknownBlock]

/-- A document with two matched fenced blocks around an ordinary
node. -/
def dTwo : Node :=
  .node 0 [] [.fenced bananaBlock, .node 1 [] [], .fenced bananaBlock]

/-! Helper lemmas: the path-based replacement loop equals the
structure-preserving map `tagNode`, and facts about paths, pf-freeness
and rendering shared by the claim theorems below. -/

theorem listGet?_at (c : Node) (p : List Nat) :
    ∀ (acc cs : List Node), Node.listGet? (acc ++ c :: cs) acc.length p = c.get? p
  | [], cs => rfl
  | a :: acc, cs => by
      simp only [List.cons_append, List.length_cons, Node.listGet?]
      exact listGet?_at c p acc cs

theorem listSetAt_at (c m : Node) (p : List Nat) :
    ∀ (acc cs : List Node),
      Node.listSetAt (acc ++ c :: cs) acc.length p m = acc ++ c.setAt p m :: cs
  | [], cs => rfl
  | a :: acc, cs => by
      simp only [List.cons_append, List.length_cons, Node.listSetAt]
      exact congrArg (fun l => a :: l) (listSetAt_at c m p acc cs)

theorem tagStep_at (reg : Registry) (src : Bytes) (k : Nat) (d : Bytes)
    (acc cs : List Node) (c : Node) (p : List Nat) :
    tagStep reg src (.node k d (acc ++ c :: cs)) (acc.length :: p)
      = .node k d (acc ++ tagStep reg src c p :: cs) := by
  unfold tagStep
  rw [Node.get?, listGet?_at]
  cases h : c.get? p with
  | none => simp
  | some m =>
      cases m with
      | fenced b =>
          cases hl : reg.lookup (b.language src) with
          | none => simp [hl]
          | some f => simp [hl, Node.setAt, listSetAt_at]
      | pf b => simp
      | node k2 d2 cs2 => simp

theorem foldl_tagStep_mapped (reg : Registry) (src : Bytes) (k : Nat) (d : Bytes) :
    ∀ (ps : List (List Nat)) (acc cs : List Node) (c : Node),
      (ps.map (fun p => acc.length :: p)).foldl (tagStep reg src)
          (.node k d (acc ++ c :: cs))
        = .node k d (acc ++ ps.foldl (tagStep reg src) c :: cs)
  | [], acc, cs, c => rfl
  | p :: ps, acc, cs, c => by
      simp only [List.map_cons, List.foldl_cons, tagStep_at]
      exact foldl_tagStep_mapped reg src k d ps acc cs (tagStep reg src c p)

mutual

theorem transform_fold (reg : Registry) (src : Bytes) :
    ∀ n : Node, (Node.fencedPaths n).foldl (tagStep reg src) n = tagNode reg src n
  | .fenced b => by
      cases h : reg.lookup (b.language src) with
      | none => simp [Node.fencedPaths, tagStep, Node.get?, h, tagNode]
      | some f => simp [Node.fencedPaths, tagStep, Node.get?, h, tagNode, Node.setAt]
  | .pf b => by simp [Node.fencedPaths, tagNode]
  | .node k d cs => by
      have h := transform_fold_list reg src cs [] k d
      simpa [Node.fencedPaths, tagNode] using h

theorem transform_fold_list (reg : Registry) (src : Bytes) :
    ∀ (cs : List Node) (acc : List Node) (k : Nat) (d : Bytes),
      (Node.fencedPathsList cs acc.length).foldl (tagStep reg src) (.node k d (acc ++ cs))
        = .node k d (acc ++ tagList reg src cs)
  | [], acc, k, d => by simp [Node.fencedPathsList, tagList]
  | c :: cs, acc, k, d => by
      rw [Node.fencedPathsList, List.foldl_append, foldl_tagStep_mapped,
          transform_fold reg src c]
      have h := transform_fold_list reg src cs (acc ++ [tagNode reg src c]) k d
      simp only [List.length_append, List.length_cons, List.length_nil] at h
      simpa [tagList] using h

end

theorem transform_eq_tagNode (reg : Registry) (src : Bytes) (doc : Node) :
    transform reg src doc = tagNode reg src doc :=
  transform_fold reg src doc

mutual

theorem tagNode_idem (reg : Registry) (src : Bytes) :
    ∀ n : Node, tagNode reg src (tagNode reg src n) = tagNode reg src n
  | .fenced b => by
      cases h : reg.lookup (b.language src) <;> simp [tagNode, h]
  | .pf b => by simp [tagNode]
  | .node k d cs => by
      simp [tagNode, tagList_idem reg src cs]

theorem tagList_idem (reg : Registry) (src : Bytes) :
    ∀ cs : List Node, tagList reg src (tagList reg src cs) = tagList reg src cs
  | [] => by simp [tagList]
  | c :: cs => by
      simp [tagList, tagNode_idem reg src c, tagList_idem reg src cs]

end

mutual

theorem get?_tagNode (reg : Registry) (src : Bytes) :
    ∀ (n : Node) (p : List Nat),
      (tagNode reg src n).get? p = (n.get? p).map (tagNode reg src)
  | n, [] => by simp [Node.get?]
  | .fenced b, i :: p => by
      cases h : reg.lookup (b.language src) <;> simp [tagNode, h, Node.get?]
  | .pf b, i :: p => by simp [tagNode, Node.get?]
  | .node k d cs, i :: p => by
      simp only [tagNode, Node.get?]
      exact listGet?_tagList reg src cs i p

theorem listGet?_tagList (reg : Registry) (src : Bytes) :
    ∀ (cs : List Node) (i : Nat) (p : List Nat),
      Node.listGet? (tagList reg src cs) i p
        = (Node.listGet? cs i p).map (tagNode reg src)
  | [], i, p => by simp [tagList, Node.listGet?]
  | c :: cs, 0, p => by
      simp only [tagList, Node.listGet?]
      exact get?_tagNode reg src c p
  | c :: cs, i + 1, p => by
      simp only [tagList, Node.listGet?]
      exact listGet?_tagList reg src cs i p

end

mutual

theorem pfFree_get? :
    ∀ (n : Node) (p : List Nat) (b : BlockData),
      n.pfFree = true → n.get? p = some (.pf b) → False
  | .fenced _, p, b, _, hg => by
      cases p <;> simp [Node.get?] at hg
  | .pf _, p, b, hf, _ => by simp [Node.pfFree] at hf
  | .node k d cs, [], b, _, hg => by simp [Node.get?] at hg
  | .node k d cs, i :: p, b, hf, hg => by
      simp only [Node.pfFree] at hf
      exact pfFreeList_get? cs i p b hf (by simpa [Node.get?] using hg)

theorem pfFreeList_get? :
    ∀ (cs : List Node) (i : Nat) (p : List Nat) (b : BlockData),
      Node.pfFreeList cs = true → Node.listGet? cs i p = some (.pf b) → False
  | [], i, p, b, _, hg => by simp [Node.listGet?] at hg
  | c :: cs, 0, p, b, hf, hg => by
      simp only [Node.pfFreeList, Bool.and_eq_true] at hf
      exact pfFree_get? c p b hf.1 (by simpa [Node.listGet?] using hg)
  | c :: cs, i + 1, p, b, hf, hg => by
      simp only [Node.pfFreeList, Bool.and_eq_true] at hf
      exact pfFreeList_get? cs i p b hf.2 (by simpa [Node.listGet?] using hg)

end

mutual

theorem tagNode_id (reg : Registry) (src : Bytes) :
    ∀ n : Node, matchedBlocks reg src n = [] → tagNode reg src n = n
  | .fenced b, h => by
      cases hl : reg.lookup (b.language src) with
      | none => simp [tagNode, hl]
      | some f => simp [matchedBlocks, hl] at h
  | .pf b, _ => rfl
  | .node k d cs, h => by
      simp only [matchedBlocks] at h
      simp [tagNode, tagList_id reg src cs h]

theorem tagList_id (reg : Registry) (src : Bytes) :
    ∀ cs : List Node, matchedBlocksList reg src cs = [] → tagList reg src cs = cs
  | [], _ => rfl
  | c :: cs, h => by
      simp only [matchedBlocksList, List.append_eq_nil] at h
      simp [tagList, tagNode_id reg src c h.1, tagList_id reg src cs h.2]

end

theorem tagList_length (reg : Registry) (src : Bytes) :
    ∀ cs : List Node, (tagList reg src cs).length = cs.length
  | [] => rfl
  | c :: cs => by simp [tagList, tagList_length reg src cs]

mutual

theorem fencedPaths_sound :
    ∀ (n : Node) (p : List Nat), p ∈ n.fencedPaths →
      ∃ b, n.get? p = some (.fenced b)
  | .fenced b, p, hp => by
      simp only [Node.fencedPaths, List.mem_singleton] at hp
      subst hp
      exact ⟨b, rfl⟩
  | .pf b, p, hp => by simp [Node.fencedPaths] at hp
  | .node k d cs, p, hp => by
      simp only [Node.fencedPaths] at hp
      obtain ⟨j, q, b, rfl, hg⟩ := fencedPathsList_sound cs 0 p hp
      exact ⟨b, by simpa [Node.get?] using hg⟩

theorem fencedPathsList_sound :
    ∀ (cs : List Node) (i : Nat) (p : List Nat), p ∈ Node.fencedPathsList cs i →
      ∃ j q b, p = (i + j) :: q ∧ Node.listGet? cs j q = some (.fenced b)
  | [], i, p, hp => by simp [Node.fencedPathsList] at hp
  | c :: cs, i, p, hp => by
      simp only [Node.fencedPathsList, List.mem_append, List.mem_map] at hp
      rcases hp with ⟨q, hq, rfl⟩ | hp
      · obtain ⟨b, hb⟩ := fencedPaths_sound c q hq
        exact ⟨0, q, b, by simp, by simpa [Node.listGet?] using hb⟩
      · obtain ⟨j, q, b, rfl, hg⟩ := fencedPathsList_sound cs (i + 1) p hp
        refine ⟨j + 1, q, b, ?_, by simpa [Node.listGet?] using hg⟩
        have : i + 1 + j = i + (j + 1) := by omega
        rw [this]

end

theorem renderFenced_miss (reg : Registry) (src : Bytes) (b : BlockData)
    (entering : Bool) (h : reg.lookup (b.language src) = none) :
    renderFenced reg src b entering = ⟨.wContinue, [], [], none⟩ := by
  simp [renderFenced, h]

theorem renderNode_pf_miss (reg : Registry) (hr : HostRenderer) (src : Bytes)
    (b : BlockData) (h : reg.lookup (b.language src) = none) :
    renderNode reg hr src (.pf b) = ⟨[], [], none⟩ := by
  simp [renderNode, renderFenced, h]

theorem renderNode_pf_ok (reg : Registry) (hr : HostRenderer) (src : Bytes)
    (b : BlockData) (f : PipeFunc) (out : Bytes)
    (h1 : reg.lookup (b.language src) = some f)
    (h2 : f (b.rawContent src) = .ok out) :
    renderNode reg hr src (.pf b)
      = ⟨out, [(b.language src, b.rawContent src)], none⟩ := by
  simp [renderNode, renderFenced, h1, h2]

theorem renderNode_pf_error (reg : Registry) (hr : HostRenderer) (src : Bytes)
    (b : BlockData) (f : PipeFunc) (cause : String)
    (h1 : reg.lookup (b.language src) = some f)
    (h2 : f (b.rawContent src) = .error cause) :
    renderNode reg hr src (.pf b)
      = ⟨[], [(b.language src, b.rawContent src)],
          some ⟨b.language src, cause⟩⟩ := by
  simp [renderNode, renderFenced, h1, h2]

mutual

theorem renderNode_default (reg : Registry) (hr : HostRenderer) (src : Bytes) :
    ∀ n : Node, n.pfFree = true →
      renderNode reg hr src n = ⟨defaultRender hr src n, [], none⟩
  | .fenced b, _ => by simp [renderNode, defaultRender]
  | .pf b, h => by simp [Node.pfFree] at h
  | .node k d cs, h => by
      simp only [Node.pfFree] at h
      simp [renderNode, renderList_default reg hr src cs h, defaultRender]

theorem renderList_default (reg : Registry) (hr : HostRenderer) (src : Bytes) :
    ∀ cs : List Node, Node.pfFreeList cs = true →
      renderList reg hr src cs = ⟨defaultRenderList hr src cs, [], none⟩
  | [], _ => rfl
  | c :: cs, h => by
      simp only [Node.pfFreeList, Bool.and_eq_true] at h
      simp [renderList, renderNode_default reg hr src c h.1,
            renderList_default reg hr src cs h.2, defaultRenderList]

end

mutual

theorem renderNode_tag_trace (reg : Registry) (hr : HostRenderer) (src : Bytes) :
    ∀ n : Node, n.pfFree = true →
      allSucceed reg src (matchedBlocks reg src n) →
      ∃ out, renderNode reg hr src (tagNode reg src n)
        = ⟨out, (matchedBlocks reg src n).map
              (fun b => (b.language src, b.rawContent src)), none⟩
  | .fenced b, _, hs => by
      cases hl : reg.lookup (b.language src) with
      | none =>
          exact ⟨hr.fencedOut src b,
            by simp [tagNode, hl, renderNode, matchedBlocks]⟩
      | some f =>
          have hb : b ∈ matchedBlocks reg src (.fenced b) := by
            simp [matchedBlocks, hl]
          obtain ⟨out, hout⟩ := hs b hb f hl
          refine ⟨out, ?_⟩
          simp [tagNode, hl, matchedBlocks,
                renderNode_pf_ok reg hr src b f out hl hout]
  | .pf b, hp, _ => by simp [Node.pfFree] at hp
  | .node k d cs, hp, hs => by
      simp only [Node.pfFree] at hp
      simp only [matchedBlocks] at hs ⊢
      obtain ⟨out, hout⟩ := renderList_tag_trace reg hr src cs hp hs
      exact ⟨hr.enterB k d ++ out ++ hr.leaveB k d,
        by simp [tagNode, renderNode, hout]⟩

theorem renderList_tag_trace (reg : Registry) (hr : HostRenderer) (src : Bytes) :
    ∀ cs : List Node, Node.pfFreeList cs = true →
      allSucceed reg src (matchedBlocksList reg src cs) →
      ∃ out, renderList reg hr src (tagList reg src cs)
        = ⟨out, (matchedBlocksList reg src cs).map
              (fun b => (b.language src, b.rawContent src)), none⟩
  | [], _, _ => ⟨[], rfl⟩
  | c :: cs, hp, hs => by
      simp only [Node.pfFreeList, Bool.and_eq_true] at hp
      simp only [matchedBlocksList] at hs ⊢
      have hs1 : allSucceed reg src (matchedBlocks reg src c) :=
        fun b hb f hf => hs b (List.mem_append_left _ hb) f hf
      have hs2 : allSucceed reg src (matchedBlocksList reg src cs) :=
        fun b hb f hf => hs b (List.mem_append_right _ hb) f hf
      obtain ⟨o1, h1⟩ := renderNode_tag_trace reg hr src c hp.1 hs1
      obtain ⟨o2, h2⟩ := renderList_tag_trace reg hr src cs hp.2 hs2
      exact ⟨o1 ++ o2, by simp [tagList, renderList, h1, h2]⟩

end

theorem foldl_append_value (src : Bytes) :
    ∀ (ls : List Segment) (acc : Bytes),
      ls.foldl (fun buf line => buf ++ line.value src) acc
        = acc ++ (ls.map (fun s => s.value src)).flatten
  | [], acc => by simp
  | l :: ls, acc => by
      simp only [List.foldl_cons, List.map_cons, List.flatten_cons]
      rw [foldl_append_value src ls (acc ++ l.value src), List.append_assoc]

theorem rawContent_eq_flatten (b : BlockData) (src : Bytes) :
    b.rawContent src = (b.lines.map (fun s => s.value src)).flatten := by
  simpa using foldl_append_value src b.lines []

/-- C1: for every fenced code block whose language tag matches a key of
the transformer registry, the output emitted for that block by the
render pass is exactly the byte sequence returned by the matching
transformer function, written verbatim to the sink with no surrounding
wrapper markup and no escaping, whatever the host's default renderers
write elsewhere. -/
theorem C1_matched_block_renders_verbatim (reg : Registry) (hr : HostRenderer)
    (src : Bytes) (b : BlockData) (f : PipeFunc) (out : Bytes)
    (h1 : reg.lookup (b.language src) = some f)
    (h2 : f (b.rawContent src) = Except.ok out) :
    renderNode reg hr src (transform reg src (.fenced b))
      = ⟨out, [(b.language src, b.rawContent src)], none⟩ := by
  have ht : transform reg src (.fenced b) = .pf b := by
    rw [transform_eq_tagNode]
    simp [tagNode, h1]
  rw [ht]
  exact renderNode_pf_ok reg hr src b f out h1 h2

/-- Witness for C1: the repository's test scenario — a "banana" block
containing "foo" with the o-to-a transformer renders as exactly the
bytes of "faa" and a newline. -/
theorem C1_matched_block_renders_verbatim_witness :
    Registry.lookup bananaReg (bananaBlock.language srcEx) = some oToA ∧
    oToA (bananaBlock.rawContent srcEx) = Except.ok [102, 97, 97, 10] ∧
    renderNode bananaReg hrMark srcEx
        (transform bananaReg srcEx (.fenced bananaBlock))
      = ⟨[102, 97, 97, 10], [(bananaBlock.language srcEx,
          bananaBlock.rawContent srcEx)], none⟩ :=
  ⟨rfl, rfl, C1_matched_block_renders_verbatim bananaReg hrMark srcEx
    bananaBlock oToA [102, 97, 97, 10] rfl rfl⟩

/-- C2: the Tagger replaces each matched fenced block by its tagged
wrapper at the block's original path (unmatched fenced blocks are
untouched, and every container keeps its kind, payload and number of
children, so positions are preserved), and the render pass invokes the
matched blocks' transformers in original document order: the call
trace of the render equals the document-order list of matched blocks. -/
theorem C2_order_preservation (reg : Registry) (hr : HostRenderer) (src : Bytes)
    (doc : Node) (hp : doc.pfFree = true)
    (hs : allSucceed reg src (matchedBlocks reg src doc)) :
    (∀ p b f, doc.get? p = some (.fenced b) →
        reg.lookup (b.language src) = some f →
        (transform reg src doc).get? p = some (.pf b)) ∧
    (∀ p b, doc.get? p = some (.fenced b) →
        reg.lookup (b.language src) = none →
        (transform reg src doc).get? p = some (.fenced b)) ∧
    (∀ p k d cs, doc.get? p = some (.node k d cs) →
        ∃ cs2, (transform reg src doc).get? p = some (.node k d cs2) ∧
          cs2.length = cs.length) ∧
    (∃ out, renderNode reg hr src (transform reg src doc)
        = ⟨out, (matchedBlocks reg src doc).map
              (fun b => (b.language src, b.rawContent src)), none⟩) := by
  rw [transform_eq_tagNode]
  refine ⟨?_, ?_, ?_, ?_⟩
  · intro p b f hg hl
    rw [get?_tagNode, hg]
    simp [tagNode, hl]
  · intro p b hg hl
    rw [get?_tagNode, hg]
    simp [tagNode, hl]
  · intro p k d cs hg
    rw [get?_tagNode, hg]
    exact ⟨tagList reg src cs, by simp [tagNode], tagList_length reg src cs⟩
  · exact renderNode_tag_trace reg hr src doc hp hs

/-- Witness for C2: a document with two matched "banana" blocks renders
with a transformer call per block, in document order. -/
theorem C2_order_preservation_witness :
    dTwo.pfFree = true ∧
    (∃ out, renderNode bananaReg hrMark srcEx (transform bananaReg srcEx dTwo)
        = ⟨out, (matchedBlocks bananaReg srcEx dTwo).map
              (fun b => (b.language srcEx, b.rawContent srcEx)), none⟩) := by
  have hs : allSucceed bananaReg srcEx (matchedBlocks bananaReg srcEx dTwo) := by
    intro b hb f hf
    have hm : matchedBlocks bananaReg srcEx dTwo = [bananaBlock, bananaBlock] := rfl
    rw [hm] at hb
    simp only [List.mem_cons, List.not_mem_nil, or_false] at hb
    have hb2 : b = bananaBlock := by
      rcases hb with h | h <;> exact h
    subst hb2
    have hcomp : Registry.lookup bananaReg (bananaBlock.language srcEx)
        = some oToA := rfl
    rw [hcomp] at hf
    injection hf with hf2
    subst hf2
    exact ⟨[102, 97, 97, 10], rfl⟩
  exact ⟨rfl, (C2_order_preservation bananaReg hrMark srcEx dTwo rfl hs).2.2.2⟩

/-- C3: when the render pass visits a tagged block whose language is
registered, the transformer function is invoked exactly once for that
block: the full entering-and-leaving visit produces a call trace of
length one, whether the function succeeds or fails (no retry after a
failure; the leaving half of the visit returns before invoking). -/
theorem C3_transformer_invoked_once (reg : Registry) (hr : HostRenderer)
    (src : Bytes) (b : BlockData) (f : PipeFunc)
    (h : reg.lookup (b.language src) = some f) :
    (renderNode reg hr src (.pf b)).calls
      = [(b.language src, b.rawContent src)] := by
  cases h2 : f (b.rawContent src) with
  | ok out => rw [renderNode_pf_ok reg hr src b f out h h2]
  | error e => rw [renderNode_pf_error reg hr src b f e h h2]

/-- Witness for C3: one invocation on the "banana" block both with the
succeeding o-to-a transformer and with the always-failing one. -/
theorem C3_transformer_invoked_once_witness :
    Registry.lookup bananaReg (bananaBlock.language srcEx) = some oToA ∧
    (renderNode bananaReg hrMark srcEx (.pf bananaBlock)).calls
      = [(bananaBlock.language srcEx, bananaBlock.rawContent srcEx)] ∧
    Registry.lookup failReg (bananaBlock.language srcEx) = some failFunc ∧
    (renderNode failReg hrMark srcEx (.pf bananaBlock)).calls
      = [(bananaBlock.language srcEx, bananaBlock.rawContent srcEx)] :=
  ⟨rfl, C3_transformer_invoked_once bananaReg hrMark srcEx bananaBlock oToA rfl,
   rfl, C3_transformer_invoked_once failReg hrMark srcEx bananaBlock failFunc rfl⟩

/-- C4: when the transformer of a tagged block fails, the hook signals
WalkStop, the render returns an error carrying the failing language tag
and the underlying cause, no output bytes are written for that node,
and rendering does not continue past the failure: in a document the
siblings after the failing block contribute nothing and the parent's
leaving bytes are not written. -/
theorem C4_failure_halts_rendering (reg : Registry) (hr : HostRenderer)
    (src : Bytes) (b : BlockData) (f : PipeFunc) (cause : String)
    (h1 : reg.lookup (b.language src) = some f)
    (h2 : f (b.rawContent src) = Except.error cause) :
    (renderFenced reg src b true).status = .wStop ∧
    renderNode reg hr src (.pf b)
      = ⟨[], [(b.language src, b.rawContent src)],
          some ⟨b.language src, cause⟩⟩ ∧
    ∀ k d rest, renderNode reg hr src (.node k d (.pf b :: rest))
      = ⟨hr.enterB k d, [(b.language src, b.rawContent src)],
          some ⟨b.language src, cause⟩⟩ := by
  refine ⟨by simp [renderFenced, h1, h2],
    renderNode_pf_error reg hr src b f cause h1 h2, ?_⟩
  intro k d rest
  simp [renderNode, renderList, renderFenced, h1, h2]

/-- Witness for C4: the failing transformer on the "banana" block halts
the render of a two-block document with an error naming the tag and the
cause, and the second block is never rendered. -/
theorem C4_failure_halts_rendering_witness :
    Registry.lookup failReg (bananaBlock.language srcEx) = some failFunc ∧
    failFunc (bananaBlock.rawContent srcEx) = Except.error "boom" ∧
    renderNode failReg hrMark srcEx
        (.node 0 [] [.pf bananaBlock, .fenced unknownBlock])
      = ⟨hrMark.enterB 0 [],
          [(bananaBlock.language srcEx, bananaBlock.rawContent srcEx)],
          some ⟨bananaBlock.language srcEx, "boom"⟩⟩ :=
  ⟨rfl, rfl,
    (C4_failure_halts_rendering failReg hrMark srcEx bananaBlock failFunc "boom"
      rfl rfl).2.2 0 [] [.fenced unknownBlock]⟩

/-- C5: when the render hook's registry lookup for a tagged node's
language misses, no error is raised: the hook signals
continue-default-traversal and writes nothing itself, on entering as on
leaving, so the node falls through to the host walk's default
traversal; the full visit of the node produces no output, no
transformer call and no error. -/
theorem C5_lookup_miss_is_silent (reg : Registry) (src : Bytes) (b : BlockData)
    (h : reg.lookup (b.language src) = none) :
    (∀ entering, renderFenced reg src b entering
        = ⟨.wContinue, [], [], none⟩) ∧
    ∀ hr, renderNode reg hr src (.pf b) = ⟨[], [], none⟩ :=
  ⟨fun entering => renderFenced_miss reg src b entering h,
   fun hr => renderNode_pf_miss reg hr src b h⟩

/-- Witness for C5: the "unknown" block against the banana registry. -/
theorem C5_lookup_miss_is_silent_witness :
    Registry.lookup bananaReg (unknownBlock.language srcEx) = none ∧
    renderFenced bananaReg srcEx unknownBlock true
      = ⟨.wContinue, [], [], none⟩ ∧
    renderNode bananaReg hrMark srcEx (.pf unknownBlock) = ⟨[], [], none⟩ :=
  ⟨rfl, (C5_lookup_miss_is_silent bananaReg srcEx unknownBlock rfl).1 true,
   (C5_lookup_miss_is_silent bananaReg srcEx unknownBlock rfl).2 hrMark⟩

/-- C6: the byte content passed to a transformer function is exactly
the concatenation, in order, of the tagged block's content-line byte
spans from the source buffer, with no separators inserted: RawContent
is the flattening of the line spans' bytes, and the entering hook call
invokes the transformer with exactly those bytes. -/
theorem C6_content_is_line_concat (reg : Registry) (src : Bytes)
    (b : BlockData) (f : PipeFunc)
    (h : reg.lookup (b.language src) = some f) :
    b.rawContent src = (b.lines.map (fun s => s.value src)).flatten ∧
    (renderFenced reg src b true).calls
      = [(b.language src, (b.lines.map (fun s => s.value src)).flatten)] := by
  refine ⟨rawContent_eq_flatten b src, ?_⟩
  rw [← rawContent_eq_flatten b src]
  cases h2 : f (b.rawContent src) with
  | ok out => simp [renderFenced, h, h2]
  | error e => simp [renderFenced, h, h2]

/-- Witness for C6: the "banana" block's transformer receives the bytes
of its single content line "foo" plus newline, fences excluded. -/
theorem C6_content_is_line_concat_witness :
    Registry.lookup bananaReg (bananaBlock.language srcEx) = some oToA ∧
    bananaBlock.rawContent srcEx
      = (bananaBlock.lines.map (fun s => s.value srcEx)).flatten ∧
    (renderFenced bananaReg srcEx bananaBlock true).calls
      = [(bananaBlock.language srcEx,
          (bananaBlock.lines.map (fun s => s.value srcEx)).flatten)] :=
  ⟨rfl, (C6_content_is_line_concat bananaReg srcEx bananaBlock oToA rfl).1,
   (C6_content_is_line_concat bananaReg srcEx bananaBlock oToA rfl).2⟩

/-- C7: for a document with no fenced block matching any registered
tag, the Tagger leaves the parse tree unchanged and the extension's
render pass produces the host's unmodified default rendering — in
particular every unmatched fenced block renders as the host's default
wrapped, escaped fenced-code output `fencedOut`. -/
theorem C7_no_match_default_render (reg : Registry) (hr : HostRenderer)
    (src : Bytes) (doc : Node) (hp : doc.pfFree = true)
    (hm : matchedBlocks reg src doc = []) :
    transform reg src doc = doc ∧
    renderNode reg hr src (transform reg src doc)
      = ⟨defaultRender hr src doc, [], none⟩ := by
  have ht : transform reg src doc = doc := by
    rw [transform_eq_tagNode]
    exact tagNode_id reg src doc hm
  exact ⟨ht, by rw [ht]; exact renderNode_default reg hr src doc hp⟩

/-- Witness for C7: a document holding a paragraph-like node and an
"unknown" block is untouched by the banana registry and renders as the
default rendering. -/
theorem C7_no_match_default_render_witness :
    dUnknown.pfFree = true ∧
    matchedBlocks bananaReg srcEx dUnknown = [] ∧
    transform bananaReg srcEx dUnknown = dUnknown ∧
    renderNode bananaReg hrMark srcEx (transform bananaReg srcEx dUnknown)
      = ⟨defaultRender hrMark srcEx dUnknown, [], none⟩ :=
  ⟨rfl, rfl, (C7_no_match_default_render bananaReg hrMark srcEx dUnknown rfl rfl).1,
   (C7_no_match_default_render bananaReg hrMark srcEx dUnknown rfl rfl).2⟩

/-- C8: the Tagger pass is idempotent: a second Transform run over an
already-tagged tree returns the tree unchanged, because the collection
phase of the second run only finds fenced blocks (a distinct kind from
the tagged wrappers) and every fenced block still present after the
first run has an unregistered language, so the replacement loop does
nothing. -/
theorem C8_tagger_idempotent (reg : Registry) (src : Bytes) (doc : Node) :
    transform reg src (transform reg src doc) = transform reg src doc ∧
    ∀ p, p ∈ (transform reg src doc).fencedPaths →
      ∃ b, (transform reg src doc).get? p = some (.fenced b) ∧
        reg.lookup (b.language src) = none := by
  constructor
  · simp only [transform_eq_tagNode]
    exact tagNode_idem reg src doc
  · intro p hp
    rw [transform_eq_tagNode] at hp ⊢
    obtain ⟨b, hb⟩ := fencedPaths_sound (tagNode reg src doc) p hp
    refine ⟨b, hb, ?_⟩
    rw [get?_tagNode] at hb
    obtain ⟨m, hm, htag⟩ := Option.map_eq_some'.mp hb
    cases m with
    | fenced b2 =>
        cases hl : reg.lookup (b2.language src) with
        | none =>
            have hbb : b2 = b := by simpa [tagNode, hl] using htag
            rwa [← hbb]
        | some f => simp [tagNode, hl] at htag
    | pf b2 => simp [tagNode] at htag
    | node k d cs => simp [tagNode] at htag

/-- Witness for C8: on the mixed document, the second Transform run
changes nothing, and the one fenced block the second collection finds
(the "unknown" block, at path 1) has no registry entry. -/
theorem C8_tagger_idempotent_witness :
    transform bananaReg srcEx (transform bananaReg srcEx dMix)
      = transform bananaReg srcEx dMix ∧
    [1] ∈ (transform bananaReg srcEx dMix).fencedPaths ∧
    ∃ b, (transform bananaReg srcEx dMix).get? [1] = some (.fenced b) ∧
      Registry.lookup bananaReg (b.language srcEx) = none := by
  have hmem : [1] ∈ (transform bananaReg srcEx dMix).fencedPaths := by
    rw [show (transform bananaReg srcEx dMix).fencedPaths = [[1]] from rfl]
    exact List.mem_singleton.mpr rfl
  exact ⟨(C8_tagger_idempotent bananaReg srcEx dMix).1, hmem,
    (C8_tagger_idempotent bananaReg srcEx dMix).2 [1] hmem⟩

/-- C9: every tagged wrapper in the Tagger's output of a freshly parsed
(pf-free) tree has a language tag present in the registry, and sits at
a path where the input held a fenced block with exactly the same data
(same language span, same content-line spans): wrappers are only built
inside the successful-lookup branch, from a copy of the matched
block. -/
theorem C9_tagged_node_invariant (reg : Registry) (src : Bytes) (doc : Node)
    (hp : doc.pfFree = true) :
    ∀ p b, (transform reg src doc).get? p = some (.pf b) →
      (∃ f, reg.lookup (b.language src) = some f) ∧
      doc.get? p = some (.fenced b) := by
  intro p b hg
  rw [transform_eq_tagNode, get?_tagNode] at hg
  obtain ⟨m, hm, htag⟩ := Option.map_eq_some'.mp hg
  cases m with
  | fenced b2 =>
      cases hl : reg.lookup (b2.language src) with
      | none => simp [tagNode, hl] at htag
      | some f =>
          have hbb : b2 = b := by simpa [tagNode, hl] using htag
          subst hbb
          exact ⟨⟨f, hl⟩, hm⟩
  | pf b2 => exact (pfFree_get? doc p b2 hp hm).elim
  | node k d cs => simp [tagNode] at htag

/-- Witness for C9: the tagged wrapper at path 0 of the transformed
mixed document carries the banana block's data and its tag is
registered. -/
theorem C9_tagged_node_invariant_witness :
    dMix.pfFree = true ∧
    (transform bananaReg srcEx dMix).get? [0] = some (.pf bananaBlock) ∧
    (∃ f, Registry.lookup bananaReg (bananaBlock.language srcEx) = some f) ∧
    dMix.get? [0] = some (.fenced bananaBlock) :=
  ⟨rfl, rfl,
   C9_tagged_node_invariant bananaReg srcEx dMix rfl [0] bananaBlock rfl⟩
